import Mathlib

/-!
Verification of the temporal-intelligence engine of the memory-and-retrieval
server (source file `src/apps/mcp-server/vibe-memory-rag/src/temporal_intelligence.py`,
class `TemporalIntelligence`).

Modelling conventions
* Python floats are modelled exactly: by `ℚ` where the source only performs
  field operations and comparisons (timestamp arithmetic, percentiles, counts,
  the router, the linguistic and statistical sub-scores), and by `ℝ` where the
  source calls transcendental functions (`np.exp`, `np.std`/sqrt, cosine
  similarity through an embedding collaborator).
* A record's `created_at` value is kept as the Python value shape: absent/empty
  string, a non-empty string together with the result of
  `datetime.fromisoformat(s.replace('Z', '+00:00')).timestamp()` (the ISO-8601
  parser is a Python-library collaborator, so only its `Option ℚ` outcome is
  modelled), or a numeric epoch value.  Python truthiness (`if created_at:`)
  is reproduced, including the quirk that a numeric `0` timestamp is falsy.
* The embedding collaborator `create_embedding` is an abstract parameter
  `String → Option (EuclideanSpace ℝ (Fin n))`; `none` models the raised
  `EmbeddingError` that the source catches and converts to a `0.0` sub-score.
  The module-level embedding cache is pure memoisation of this function and
  has no observable effect.
* Python's `list.sort(key=…, reverse=True)` is a stable descending sort; a
  stable sort is modelled by `List.insertionSort` with the reversed key
  relation (stable sorting over a total preorder has a unique result, so this
  is observationally identical to Timsort).
* `try`/`except` blocks whose bodies are pure arithmetic cannot raise, so the
  except branches of `build_temporal_profile`, `_calculate_temporal_score`,
  `adaptive_temporal_scoring`, `get_memories_by_timestamp` and `route_query`
  are dead code; the fallback value of `route_query` is still defined below
  because the spec names it.
-/

namespace TemporalIntel

/-- `QueryIntent` enum (source lines 15-18). -/
inductive QueryIntent
  | temporal_primary
  | temporal_secondary
  | semantic_only
deriving DecidableEq

/-- The Python value found under the `created_at` key of a memory dict.
`strVal p` carries the outcome `p` of the ISO-8601 parsing chain
`datetime.fromisoformat(s.replace('Z', '+00:00')).timestamp()` for a
non-empty string `s` (`none` = the parser raised). `numVal x` is a numeric
epoch value, for which `float(created_at)` always succeeds. `absent` covers
a missing key and the empty string, both falsy under `if created_at:`. -/
inductive CreatedAt
  | absent
  | strVal (parse : Option ℚ)
  | numVal (x : ℚ)
deriving DecidableEq

/-- A stored memory dict, restricted to the keys the temporal core reads:
`created_at` and the optional semantic `score` (`memory_obj.get("score", 0.0)`). -/
structure MemoryRecord where
  id : ℕ
  created_at : CreatedAt
  score : Option ℚ
deriving DecidableEq

/-- The timestamp-parsing idiom shared by `_estimate_temporal_benefit`,
`build_temporal_profile`, `adaptive_temporal_scoring` and
`get_memories_by_timestamp` (e.g. source lines 296-305):
`if created_at:` then `fromisoformat`-or-`float` inside `try`, yielding
`none` whenever the record is skipped / left without a timestamp.
A numeric `0` fails the Python truthiness guard, hence parses to `none`. -/
def parsedTimestamp : CreatedAt → Option ℚ
  | .absent => none
  | .strVal p => p
  | .numVal x => if x = 0 then none else some x

/-- `age_hours = (current_time - timestamp) / 3600` (source line 129 etc.). -/
def ageHours (now ts : ℚ) : ℚ := (now - ts) / 3600

/-- The `ages` list built by the record loop of `build_temporal_profile`
(source lines 202-216) and `_estimate_temporal_benefit` (lines 118-132):
parseable records contribute their age in hours, the rest are skipped. -/
def collectAges (now : ℚ) (coll : List MemoryRecord) : List ℚ :=
  coll.filterMap fun m => (parsedTimestamp m.created_at).map (ageHours now)

/-- `np.mean` over the collected ages. -/
def meanOf (xs : List ℚ) : ℚ := xs.sum / (xs.length : ℚ)

/-- `np.var` (population variance, the numpy default); `np.std` is its
square root. -/
def varianceOf (xs : List ℚ) : ℚ :=
  ((xs.map fun a => (a - meanOf xs) ^ 2).sum) / (xs.length : ℚ)

/-- `np.percentile(xs, q)` with the default linear interpolation method:
sort ascending, take the virtual index `h = (n-1)·q/100` and interpolate
between the neighbouring entries. -/
def percentile (xs : List ℚ) (q : ℚ) : ℚ :=
  let s := List.insertionSort (· ≤ ·) xs
  let h : ℚ := ((s.length : ℚ) - 1) * q / 100
  let i : ℕ := (Int.floor h).toNat
  let lo := s.getD i 0
  let hi := s.getD (i + 1) lo
  lo + (h - (i : ℚ)) * (hi - lo)

/-- The `temporal_distribution` dict of a profile (keys recent/medium/old). -/
structure TemporalDistribution where
  recent : ℚ
  medium : ℚ
  old : ℚ
deriving DecidableEq

/-- `TemporalProfile` dataclass (source lines 20-27).  `std_age_hours` is the
only field produced through a square root, hence the only `ℝ` field. -/
structure TemporalProfile where
  mean_age_hours : ℚ
  std_age_hours : ℝ
  recent_threshold_hours : ℚ
  old_threshold_hours : ℚ
  temporal_distribution : TemporalDistribution

/-- The default profile returned when no ages could be collected
(source lines 218-226). -/
noncomputable def defaultEmptyProfile : TemporalProfile :=
  { mean_age_hours := 24
    std_age_hours := 12
    recent_threshold_hours := 1
    old_threshold_hours := 168
    temporal_distribution := ⟨0, 0, 1⟩ }

/-- `build_temporal_profile` (source lines 197-270).  The surrounding
`try`/`except` cannot fire on this pure arithmetic, so the second default
profile (lines 264-270) is unreachable and not part of the function's
behaviour.  The distribution counts follow lines 238-248 verbatim:
`recent_count = Σ(age ≤ recent_threshold)`, `medium_count =
Σ(recent_threshold < age ≤ old_threshold)`, `old_count = Σ(age > old_threshold)`. -/
noncomputable def buildTemporalProfile (now : ℚ) (coll : List MemoryRecord) :
    TemporalProfile :=
  let ages := collectAges now coll
  if ages = [] then defaultEmptyProfile
  else
    let recent_threshold : ℚ := max 1 (percentile ages 25)
    let old_threshold : ℚ := min 168 (percentile ages 75)
    let total : ℚ := (ages.length : ℚ)
    { mean_age_hours := meanOf ages
      std_age_hours := Real.sqrt ((varianceOf ages : ℚ) : ℝ)
      recent_threshold_hours := recent_threshold
      old_threshold_hours := old_threshold
      temporal_distribution :=
        { recent := (((ages.filter fun a => a ≤ recent_threshold).length : ℕ) : ℚ) / total
          medium := (((ages.filter fun a =>
              recent_threshold < a ∧ a ≤ old_threshold).length : ℕ) : ℚ) / total
          old := (((ages.filter fun a => old_threshold < a).length : ℕ) : ℚ) / total } }

/-- The pre-boost base temporal score of `_calculate_temporal_score`
(source lines 350-353): `exp(-decay_rate * age_hours / 24)` with
`decay_rate = 1/(std_age_hours + 1)`. -/
noncomputable def baseTemporalScore (age_hours : ℝ) (p : TemporalProfile) : ℝ :=
  Real.exp (-(1 / (p.std_age_hours + 1)) * age_hours / 24)

/-- The step multiplier of `_calculate_temporal_score` (source lines 356-364). -/
noncomputable def temporalBoost (age_hours : ℝ) (p : TemporalProfile) : ℝ :=
  if age_hours ≤ (p.recent_threshold_hours : ℝ) then 1.2
  else if age_hours ≤ (p.old_threshold_hours : ℝ) then 1 else 0.8

/-- `_calculate_temporal_score` (source lines 341-366): base score times
step multiplier.  The except branch (neutral `0.5`) is dead code. -/
noncomputable def calculateTemporalScore (age_hours : ℝ) (p : TemporalProfile) : ℝ :=
  baseTemporalScore age_hours p * temporalBoost age_hours p

/-- `memory_obj.get("score", 0.0)`. -/
def semanticScore (m : MemoryRecord) : ℚ := m.score.getD 0

/-- A memory dict as it leaves `adaptive_temporal_scoring`: the original
record plus the derived keys the loop may add (`none` = key not present,
exactly as for the untouched dicts returned on the `SEMANTIC_ONLY` path). -/
structure ScoredMemory where
  mem : MemoryRecord
  temporal_score : Option ℝ
  original_semantic_score : Option ℝ
  age_hours : Option ℚ

/-- A record passed through unchanged (the `SEMANTIC_ONLY` early return of
`adaptive_temporal_scoring`, source lines 282-283, adds no keys). -/
def plainScored (m : MemoryRecord) : ScoredMemory :=
  { mem := m, temporal_score := none, original_semantic_score := none, age_hours := none }

/-- The loop body of `adaptive_temporal_scoring` (source lines 292-330) for
one record, for a non-`SEMANTIC_ONLY` intent: parse the timestamp, use the
semantic score alone when parsing fails, otherwise fuse temporal and
semantic score according to the intent; decorate the copy of the dict.
The `age_hours` key is only added under the truthiness test
`if memory_timestamp:` (line 327), so a parsed epoch `0` gets no such key. -/
noncomputable def scoreMemory (now : ℚ) (intent : QueryIntent) (confidence : ℝ)
    (p : TemporalProfile) (m : MemoryRecord) : ScoredMemory :=
  let semantic : ℝ := ((semanticScore m : ℚ) : ℝ)
  let mts := parsedTimestamp m.created_at
  let final : ℝ :=
    match mts with
    | none => semantic
    | some ts =>
      let age : ℝ := ((ageHours now ts : ℚ) : ℝ)
      match intent with
      | .temporal_primary =>
          calculateTemporalScore age p * confidence + semantic * (1 - confidence)
      | _ =>
          semantic * (1 - confidence * 0.5) + calculateTemporalScore age p * (confidence * 0.5)
  { mem := m
    temporal_score := some final
    original_semantic_score := some semantic
    age_hours :=
      match mts with
      | some ts => if ts = 0 then none else some (ageHours now ts)
      | none => none }

/-- The sort key `x.get("temporal_score", 0.0)` of line 333. -/
noncomputable def scoredKey (sm : ScoredMemory) : ℝ := sm.temporal_score.getD 0

/-- `adaptive_temporal_scoring` (source lines 272-339).  The resolved
profile (`profile or self._profile or build_temporal_profile(...)`) is taken
as an explicit argument, since the claims quantify over it.  The final
`sort(key=…, reverse=True)` is the stable descending sort by temporal score. -/
noncomputable def adaptiveTemporalScoring (now : ℚ) (memory_objects : List MemoryRecord)
    (intent : QueryIntent) (confidence : ℝ) (p : TemporalProfile) : List ScoredMemory :=
  if intent = .semantic_only then memory_objects.map plainScored
  else
    List.insertionSort (fun a b => scoredKey b ≤ scoredKey a)
      (memory_objects.map (scoreMemory now intent confidence p))

/-- A dict inside the `timestamped_memories` list of
`get_memories_by_timestamp`, before `sort_timestamp` is popped. -/
structure TsMemory where
  mem : MemoryRecord
  sort_timestamp : ℚ
  age_hours : ℚ
deriving DecidableEq

/-- A dict returned by `get_memories_by_timestamp` (after the `sort_timestamp`
pop, keeping the added `age_hours` key). -/
structure TimedMemory where
  mem : MemoryRecord
  age_hours : ℚ
deriving DecidableEq

/-- The `timestamped_memories` list built by the record loop of
`get_memories_by_timestamp` (source lines 384-407): records with a
parseable (truthy) timestamp that pass the optional age filter, decorated
with `sort_timestamp` and `age_hours`. -/
def timestampedOf (now : ℚ) (time_filter_hours : Option ℚ)
    (memory_collection : List MemoryRecord) : List TsMemory :=
  memory_collection.filterMap fun m =>
    match parsedTimestamp m.created_at with
    | none => none
    | some ts =>
      match time_filter_hours with
      | some f => if ageHours now ts > f then none else some ⟨m, ts, ageHours now ts⟩
      | none => some ⟨m, ts, ageHours now ts⟩

/-- `get_memories_by_timestamp` (source lines 372-423): sort the
`timestamped_memories` descending by timestamp (stable), truncate to
`limit`, and pop the temporary `sort_timestamp` key. -/
def getMemoriesByTimestamp (now : ℚ) (memory_collection : List MemoryRecord)
    (limit : ℕ) (time_filter_hours : Option ℚ) : List TimedMemory :=
  let sorted := List.insertionSort
    (fun a b : TsMemory => b.sort_timestamp ≤ a.sort_timestamp)
    (timestampedOf now time_filter_hours memory_collection)
  (sorted.take limit).map fun t => { mem := t.mem, age_hours := t.age_hours }

/-- A strategy name with its parameter dict, as returned by `route_query`. -/
inductive RouteResult
  | timestamp_direct (limit : ℕ) (time_filter_hours : Option ℚ)
  | semantic_temporal_hybrid (semantic_limit_multiplier : ℕ) (temporal_weight : ℝ)
      (use_fresh_memory_boost : Bool)
  | semantic_only (limit : ℕ) (use_reranking : Bool)

/-- `route_query` (source lines 425-467); the `query` and
`memory_collection` parameters are part of the signature but unused. -/
noncomputable def routeQuery (_query : String) (_memory_collection : List MemoryRecord)
    (intent : QueryIntent) (confidence : ℝ) : RouteResult :=
  if intent = .temporal_primary ∧ 0.8 < confidence then
    .timestamp_direct 5 none
  else if intent = .temporal_primary then
    .semantic_temporal_hybrid 3 confidence true
  else if intent = .temporal_secondary then
    .semantic_temporal_hybrid 2 (confidence * 0.5) false
  else
    .semantic_only 5 true

/-- The fail-safe value of the `except` branch of `route_query`
(source line 467). -/
def routeFallbackResult : RouteResult := .semantic_only 5 true

/-- The router's decision table as the spec states it, one row per
condition (spec section 4.4): written from the spec's words, to be compared
with `routeQuery` above. -/
noncomputable def routeQuerySpec (intent : QueryIntent) (confidence : ℝ) : RouteResult :=
  match intent with
  | .temporal_primary =>
      if 0.8 < confidence then .timestamp_direct 5 none
      else .semantic_temporal_hybrid 3 confidence true
  | .temporal_secondary => .semantic_temporal_hybrid 2 (confidence * 0.5) false
  | .semantic_only => .semantic_only 5 true

/-- The six temporal pattern templates of `_semantic_temporal_detection`
(source lines 82-89). -/
def temporalPatterns : List String :=
  ["show me the most recent information",
   "what was the latest thing I accessed",
   "find my recent activity",
   "chronological order of my browsing",
   "time-based search results",
   "newest entries in my history"]

/-- `np.dot(u, v) / (np.linalg.norm(u) * np.linalg.norm(v))` (source
lines 98-100).  Lean's division-by-zero convention yields `0` for a zero
embedding, which coincides with what the source's `max` accumulation does
with the resulting `nan` (Python's `max` keeps the accumulator). -/
noncomputable def cosineSimilarity {n : ℕ} (x y : EuclideanSpace ℝ (Fin n)) : ℝ :=
  (inner x y : ℝ) / (‖x‖ * ‖y‖)

/-- `_semantic_temporal_detection` (source lines 68-107): embed the query
and the six templates, return the running maximum (started at `0.0`) of the
cosine similarities; any embedding failure is caught and yields `0.0`. -/
noncomputable def semanticTemporalDetection {n : ℕ}
    (embed : String → Option (EuclideanSpace ℝ (Fin n))) (query : String) : ℝ :=
  match embed query with
  | none => 0
  | some qe =>
    match temporalPatterns.mapM embed with
    | none => 0
    | some pes => pes.foldl (fun m pe => max m (cosineSimilarity qe pe)) 0

/-- `_estimate_temporal_benefit` (source lines 109-159): fraction of ages
under 24h and capped normalised variance, combined `0.6/0.4`. -/
def estimateTemporalBenefit (now : ℚ) (coll : List MemoryRecord) : ℚ :=
  if coll.isEmpty then 0
  else
    let ages := collectAges now coll
    if ages.isEmpty then 0
    else
      let total : ℚ := (ages.length : ℚ)
      let recent : ℚ := (((ages.filter fun a => a < 24).length : ℕ) : ℚ)
      let age_variance : ℚ := if 1 < ages.length then varianceOf ages else 0
      let recent_factor : ℚ := if 0 < total then recent / total else 0
      let variance_factor : ℚ := min (age_variance / 1000) 1
      recent_factor * 0.6 + variance_factor * 0.4

/-- `startsWithList s t` = `s` begins with `t` (character lists). -/
def startsWithList : List Char → List Char → Bool
  | _, [] => true
  | [], _ :: _ => false
  | a :: as, b :: bs => a == b && startsWithList as bs

/-- `containsList s t` = Python's `t in s` on character lists. -/
def containsList : List Char → List Char → Bool
  | [], t => t.isEmpty
  | a :: as, t => startsWithList (a :: as) t || containsList as t

/-- Python's substring test `t in s`. -/
def containsSub (s t : String) : Bool := containsList s.toList t.toList

/-- Python's `str.split()` (split on whitespace runs, no empty tokens). -/
def pythonSplitWs (s : String) : List String :=
  (s.split fun c => c.isWhitespace).filter fun w => w ≠ ""

/-- Word family of the time-question pattern (source line 172). -/
def timeQuestionWords : List String := ["when", "what time", "how long ago"]

/-- Word family of the superlative pattern (source line 174). -/
def superlativeWords : List String := ["most", "latest", "newest", "oldest", "first", "last"]

/-- Word family of the temporal-ordering pattern (source line 176). -/
def orderingWords : List String := ["order", "sequence", "chronological", "timeline"]

/-- Word family of the recency pattern (source line 178). -/
def recencyWords : List String := ["recent", "new", "fresh"]

/-- Word family of the comparative pattern (source line 180). -/
def comparativeWords : List String := ["before", "after", "since"]

/-- The structural start phrases of the `+0.2` boost (source line 188). -/
def structuralStartPhrases : List String := ["what was", "show me", "find my"]

/-- `_linguistic_temporal_analysis` (source lines 161-195): count of the
five matched pattern families over five, clamped, plus a `0.2` boost for a
short query starting with one of the structural phrases, clamped again. -/
def linguisticTemporalAnalysis (query : String) : ℚ :=
  let q := query.toLower.trim
  let checks : List Bool :=
    [timeQuestionWords.any fun t => containsSub q t,
     superlativeWords.any fun t => containsSub q t,
     orderingWords.any fun t => containsSub q t,
     recencyWords.any fun t => containsSub q t,
     comparativeWords.any fun t => containsSub q t]
  let matched : ℕ := (checks.filter fun b => b).length
  let confidence : ℚ := min ((matched : ℚ) / ((checks.length : ℕ) : ℚ)) 1
  let confidence :=
    if (structuralStartPhrases.any fun t => q.startsWith t)
        && decide ((pythonSplitWs q).length ≤ 6) then
      confidence + 0.2
    else confidence
  min confidence 1

/-- `analyze_intent` (source lines 39-66): weighted combination
`0.4 / 0.3 / 0.3` of the three sub-scores, mapped to an intent with closed
lower bounds `0.7` and `0.3`. -/
noncomputable def analyzeIntent {n : ℕ}
    (embed : String → Option (EuclideanSpace ℝ (Fin n)))
    (now : ℚ) (query : String) (memory_collection : List MemoryRecord) :
    QueryIntent × ℝ :=
  let temporal_confidence := semanticTemporalDetection embed query
  let temporal_benefit : ℝ := ((estimateTemporalBenefit now memory_collection : ℚ) : ℝ)
  let linguistic_confidence : ℝ := ((linguisticTemporalAnalysis query : ℚ) : ℝ)
  let combined_confidence :=
    temporal_confidence * 0.4 + temporal_benefit * 0.3 + linguistic_confidence * 0.3
  if 0.7 ≤ combined_confidence then (.temporal_primary, combined_confidence)
  else if 0.3 ≤ combined_confidence then (.temporal_secondary, combined_confidence)
  else (.semantic_only, combined_confidence)

/-- Two records aged 0.5h and 0.9h at `now = 10000` epoch seconds: the
clamped 25th percentile of their ages is `max 1 0.6 = 1` while the clamped
75th percentile is `min 168 0.8 = 0.8`, so the thresholds cross. -/
def youngRecordA : MemoryRecord := { id := 1, created_at := .numVal 8200, score := none }

/-- Companion record for the crossed-thresholds input (age 0.9h). -/
def youngRecordB : MemoryRecord := { id := 2, created_at := .numVal 6760, score := none }

/-- A record with no `created_at` at all. -/
def noTimestampRecord : MemoryRecord := { id := 3, created_at := .absent, score := some (1/2) }

/-- A record aged exactly 1 hour at `now = 7200`. -/
def freshRecord : MemoryRecord := { id := 4, created_at := .numVal 3600, score := none }

/-- A record whose `created_at` string the ISO parser rejects. -/
def malformedRecord : MemoryRecord := { id := 5, created_at := .strVal none, score := none }

/-! ## Supporting lemmas (shared between claims) -/

/-- The ages collected from the crossed-thresholds input. -/
theorem collectAges_youngRecords :
    collectAges 10000 [youngRecordA, youngRecordB] = [1/2, 9/10] := by
  norm_num [collectAges, parsedTimestamp, ageHours, youngRecordA, youngRecordB,
    List.filterMap_cons]

/-- The distribution computed for the crossed-thresholds input: the clamped
thresholds are `recent = max 1 (3/5) = 1` and `old = min 168 (4/5) = 4/5`,
so both ages land in the `recent` bucket and one of them additionally in
the `old` bucket. -/
theorem buildTemporalProfile_youngRecords_distribution :
    (buildTemporalProfile 10000 [youngRecordA, youngRecordB]).temporal_distribution
      = ⟨1, 0, 1/2⟩ := by
  have h25 : percentile [1/2, 9/10] 25 = 3/5 := by
    norm_num [percentile, List.insertionSort, List.orderedInsert, List.getD]
  have h75 : percentile [1/2, 9/10] 75 = 4/5 := by
    norm_num [percentile, List.insertionSort, List.orderedInsert, List.getD]
  rw [buildTemporalProfile, collectAges_youngRecords]
  norm_num [h25, h75, List.filter]
  rw [if_neg (List.cons_ne_nil _ _)]

/-- `np.std` of a collected age sample is a square root, and both default
profiles use `12.0`, so every profile the profiler returns has a
non-negative standard deviation (used to justify the `0 ≤ std_age_hours`
hypotheses below). -/
theorem buildTemporalProfile_std_nonneg (now : ℚ) (coll : List MemoryRecord) :
    0 ≤ (buildTemporalProfile now coll).std_age_hours := by
  rw [buildTemporalProfile]
  split_ifs
  · norm_num [defaultEmptyProfile]
  · exact Real.sqrt_nonneg _

/-- The step multiplier is always one of `1.2`, `1.0`, `0.8`, hence positive. -/
theorem temporalBoost_pos (age : ℝ) (p : TemporalProfile) : 0 < temporalBoost age p := by
  rw [temporalBoost]
  split_ifs <;> norm_num

/-! ## Claim theorems -/

/-- C1: the claim states that for every collection yielding at least one
parseable age the three bucket fractions of `build_temporal_profile` sum to
`1.0` within `1e-6`.  The code violates this: on a collection of two records
aged `0.5h` and `0.9h`, the clamped thresholds cross (`recent = max 1 (3/5) = 1`,
`old = min 168 (4/5) = 4/5`), the buckets `age ≤ recent` and `age > old`
overlap, and the fractions sum to `3/2`. -/
theorem buildTemporalProfile_distribution_sum_violation :
    (buildTemporalProfile 10000 [youngRecordA, youngRecordB]).temporal_distribution.recent
      + (buildTemporalProfile 10000 [youngRecordA, youngRecordB]).temporal_distribution.medium
      + (buildTemporalProfile 10000 [youngRecordA, youngRecordB]).temporal_distribution.old
      = 3/2 := by
  rw [buildTemporalProfile_youngRecords_distribution]
  norm_num

/-- C2 (counterexample): a record without a parseable `created_at` IS
excluded from the output of `get_memories_by_timestamp` (the `continue` on
source lines 388 and 407): with such a record in the collection the result
is empty. -/
theorem getMemoriesByTimestamp_excludes_missing_timestamp :
    noTimestampRecord ∈ [noTimestampRecord]
      ∧ getMemoriesByTimestamp 0 [noTimestampRecord] 5 none = [] :=
  ⟨List.mem_singleton_self _, by decide⟩

/-- C2 (amended): in `adaptive_temporal_scoring` a record whose
`created_at` is missing or unparseable is never excluded — under
`SEMANTIC_ONLY` it is returned untouched, and under a temporal intent its
decorated copy is in the output with the semantic score as its final
score.  (`get_memories_by_timestamp` instead excludes such records by
policy, per the counterexample.) -/
theorem adaptiveTemporalScoring_never_excludes
    (now : ℚ) (l : List MemoryRecord) (intent : QueryIntent) (confidence : ℝ)
    (p : TemporalProfile) (m : MemoryRecord) (hm : m ∈ l)
    (hts : parsedTimestamp m.created_at = none) :
    (intent = .semantic_only →
        plainScored m ∈ adaptiveTemporalScoring now l intent confidence p)
    ∧ (intent ≠ .semantic_only →
        scoreMemory now intent confidence p m
            ∈ adaptiveTemporalScoring now l intent confidence p
          ∧ (scoreMemory now intent confidence p m).temporal_score
            = some ((semanticScore m : ℚ) : ℝ)) := by
  constructor
  · intro h
    rw [adaptiveTemporalScoring, if_pos h]
    exact List.mem_map.mpr ⟨m, hm, rfl⟩
  · intro h
    rw [adaptiveTemporalScoring, if_neg h]
    refine ⟨?_, ?_⟩
    · rw [List.mem_insertionSort]
      exact List.mem_map.mpr ⟨m, hm, rfl⟩
    · simp [scoreMemory, hts]

/-- Witness for `adaptiveTemporalScoring_never_excludes` at a concrete
no-timestamp record under `TEMPORAL_PRIMARY`. -/
theorem adaptiveTemporalScoring_never_excludes_witness :
    scoreMemory 0 .temporal_primary 0 defaultEmptyProfile noTimestampRecord
        ∈ adaptiveTemporalScoring 0 [noTimestampRecord] .temporal_primary 0 defaultEmptyProfile
      ∧ (scoreMemory 0 .temporal_primary 0 defaultEmptyProfile noTimestampRecord).temporal_score
        = some ((semanticScore noTimestampRecord : ℚ) : ℝ) :=
  (adaptiveTemporalScoring_never_excludes 0 [noTimestampRecord] .temporal_primary 0
    defaultEmptyProfile noTimestampRecord (List.mem_singleton_self _) rfl).2 (by decide)

/-- C3 (counterexample): the claim asserts the pre-boost base score is in
`[0,1]` for every age; a negative age (a `created_at` in the future) makes
the exponent positive: at age `-312h` with the default profile
(`std = 12`, `decay = 1/13`) the base score is `exp 1 > 1`. -/
theorem baseTemporalScore_exceeds_one_for_negative_age :
    1 < baseTemporalScore (-312) defaultEmptyProfile := by
  have h : baseTemporalScore (-312) defaultEmptyProfile = Real.exp 1 := by
    rw [baseTemporalScore]
    norm_num [defaultEmptyProfile]
  rw [h]
  linarith [Real.add_one_le_exp (1 : ℝ)]

/-- C3 (amended): for every non-negative age and every profile with
non-negative standard deviation (every profile the profiler produces, see
`buildTemporalProfile_std_nonneg`), the pre-boost base score lies in
`[0,1]`, and the final temporal score can only exceed `1` through the
`1.2` recent-bracket multiplier. -/
theorem baseTemporalScore_bounds_of_nonneg_age (age : ℝ) (p : TemporalProfile)
    (hage : 0 ≤ age) (hstd : 0 ≤ p.std_age_hours) :
    0 ≤ baseTemporalScore age p ∧ baseTemporalScore age p ≤ 1
    ∧ (1 < calculateTemporalScore age p → age ≤ (p.recent_threshold_hours : ℝ)) := by
  have harg : -(1 / (p.std_age_hours + 1)) * age / 24 ≤ 0 := by
    have h1 : 0 ≤ 1 / (p.std_age_hours + 1) := by positivity
    have h2 : 0 ≤ 1 / (p.std_age_hours + 1) * age := mul_nonneg h1 hage
    linarith
  have hbase1 : baseTemporalScore age p ≤ 1 := by
    rw [baseTemporalScore]
    exact Real.exp_le_one_iff.mpr harg
  have hbase0 : 0 ≤ baseTemporalScore age p := (Real.exp_pos _).le
  refine ⟨hbase0, hbase1, ?_⟩
  intro hgt
  by_contra hnot
  push_neg at hnot
  have hboost : temporalBoost age p ≤ 1 := by
    rw [temporalBoost, if_neg (not_le.mpr hnot)]
    split_ifs <;> norm_num
  have hle : calculateTemporalScore age p ≤ 1 := by
    rw [calculateTemporalScore]
    calc baseTemporalScore age p * temporalBoost age p
        ≤ 1 * 1 := mul_le_mul hbase1 hboost (temporalBoost_pos age p).le zero_le_one
      _ = 1 := one_mul 1
  linarith

/-- Witness for `baseTemporalScore_bounds_of_nonneg_age` at age `0` with
the default profile. -/
theorem baseTemporalScore_bounds_witness :
    0 ≤ baseTemporalScore 0 defaultEmptyProfile
    ∧ baseTemporalScore 0 defaultEmptyProfile ≤ 1
    ∧ (1 < calculateTemporalScore 0 defaultEmptyProfile
        → (0 : ℝ) ≤ (defaultEmptyProfile.recent_threshold_hours : ℝ)) :=
  baseTemporalScore_bounds_of_nonneg_age 0 defaultEmptyProfile le_rfl
    (by norm_num [defaultEmptyProfile])

/-- C4: `route_query` realises exactly the spec's decision table
(`routeQuerySpec`, written from the table's rows), and the fail-safe value
of the dead `except` branch coincides with the table's `SEMANTIC_ONLY`
row. -/
theorem routeQuery_matches_decision_table (q : String) (coll : List MemoryRecord)
    (intent : QueryIntent) (confidence : ℝ) :
    routeQuery q coll intent confidence = routeQuerySpec intent confidence
    ∧ routeFallbackResult = routeQuerySpec .semantic_only confidence := by
  constructor
  · cases intent <;> by_cases hc : (0.8 : ℝ) < confidence <;>
      simp [routeQuery, routeQuerySpec, hc]
  · rfl

/-- C8: a record with a missing or unparseable timestamp is assigned,
under either temporal intent, a final score that is exactly its semantic
score; and under `SEMANTIC_ONLY` the scorer is bypassed and the input list
is returned unchanged (no derived keys added). -/
theorem scoreMemory_missing_timestamp_semantic_passthrough
    (now : ℚ) (confidence : ℝ) (p : TemporalProfile) (l : List MemoryRecord)
    (m : MemoryRecord) (intent : QueryIntent)
    (_hi : intent = .temporal_primary ∨ intent = .temporal_secondary)
    (hts : parsedTimestamp m.created_at = none) :
    (scoreMemory now intent confidence p m).temporal_score
        = some ((semanticScore m : ℚ) : ℝ)
    ∧ adaptiveTemporalScoring now l .semantic_only confidence p = l.map plainScored := by
  refine ⟨by simp [scoreMemory, hts], ?_⟩
  rw [adaptiveTemporalScoring, if_pos rfl]

/-- Witness for `scoreMemory_missing_timestamp_semantic_passthrough` under
`TEMPORAL_SECONDARY`. -/
theorem scoreMemory_missing_timestamp_semantic_passthrough_witness :
    (scoreMemory 1 .temporal_secondary 1 defaultEmptyProfile noTimestampRecord).temporal_score
        = some ((semanticScore noTimestampRecord : ℚ) : ℝ)
    ∧ adaptiveTemporalScoring 1 [] .semantic_only 1 defaultEmptyProfile
        = List.map plainScored [] :=
  scoreMemory_missing_timestamp_semantic_passthrough 1 1 defaultEmptyProfile []
    noTimestampRecord .temporal_secondary (Or.inr rfl) rfl

/-- C7: for a fixed profile with non-negative standard deviation (every
profile the profiler produces, see `buildTemporalProfile_std_nonneg`) and
two ages `a1 < a2` in the same boost bracket, the temporal score of the
younger age is at least that of the older age. -/
theorem calculateTemporalScore_monotone_in_bracket (p : TemporalProfile) (a1 a2 : ℝ)
    (hstd : 0 ≤ p.std_age_hours) (h12 : a1 < a2)
    (hbracket :
      (a1 ≤ (p.recent_threshold_hours : ℝ) ∧ a2 ≤ (p.recent_threshold_hours : ℝ))
      ∨ ((p.recent_threshold_hours : ℝ) < a1 ∧ a1 ≤ (p.old_threshold_hours : ℝ)
          ∧ (p.recent_threshold_hours : ℝ) < a2 ∧ a2 ≤ (p.old_threshold_hours : ℝ))
      ∨ ((p.old_threshold_hours : ℝ) < a1 ∧ (p.old_threshold_hours : ℝ) < a2)) :
    calculateTemporalScore a2 p ≤ calculateTemporalScore a1 p := by
  have hbase : baseTemporalScore a2 p ≤ baseTemporalScore a1 p := by
    rw [baseTemporalScore, baseTemporalScore]
    apply Real.exp_le_exp.mpr
    have hinv : 0 ≤ 1 / (p.std_age_hours + 1) := by positivity
    have hmul := mul_le_mul_of_nonneg_left h12.le hinv
    linarith
  have hbase0 : 0 ≤ baseTemporalScore a1 p := (Real.exp_pos _).le
  have hboost : temporalBoost a2 p ≤ temporalBoost a1 p := by
    rw [temporalBoost, temporalBoost]
    rcases hbracket with ⟨h1, h2⟩ | ⟨h1, h2, h3, h4⟩ | ⟨h1, h2⟩ <;>
      split_ifs <;> linarith
  calc calculateTemporalScore a2 p
      = baseTemporalScore a2 p * temporalBoost a2 p := rfl
    _ ≤ baseTemporalScore a1 p * temporalBoost a1 p :=
        mul_le_mul hbase hboost (temporalBoost_pos a2 p).le hbase0
    _ = calculateTemporalScore a1 p := rfl

/-- Witness for `calculateTemporalScore_monotone_in_bracket`: ages `200h`
and `300h` are both above the default profile's old threshold (`168h`). -/
theorem calculateTemporalScore_monotone_witness :
    calculateTemporalScore 300 defaultEmptyProfile
      ≤ calculateTemporalScore 200 defaultEmptyProfile :=
  calculateTemporalScore_monotone_in_bracket defaultEmptyProfile 200 300
    (by norm_num [defaultEmptyProfile]) (by norm_num)
    (Or.inr (Or.inr ⟨by norm_num [defaultEmptyProfile], by norm_num [defaultEmptyProfile]⟩))

/-- Cosine similarity never exceeds `1` (Cauchy-Schwarz; a zero norm gives
`0` by the division convention). -/
theorem cosineSimilarity_le_one {n : ℕ} (x y : EuclideanSpace ℝ (Fin n)) :
    cosineSimilarity x y ≤ 1 := by
  rw [cosineSimilarity]
  rcases eq_or_lt_of_le (mul_nonneg (norm_nonneg x) (norm_nonneg y)) with h | h
  · rw [← h, div_zero]
    exact zero_le_one
  · rw [div_le_one h]
    exact real_inner_le_norm x y

/-- A running maximum started from a non-negative accumulator stays
non-negative. -/
theorem foldlMax_nonneg {α : Type} (f : α → ℝ) :
    ∀ (l : List α) (a : ℝ), 0 ≤ a → 0 ≤ l.foldl (fun m x => max m (f x)) a
  | [], _, h => h
  | _ :: l, _a, h => foldlMax_nonneg f l _ (le_trans h (le_max_left _ _))

/-- A running maximum of values at most `1`, started from an accumulator at
most `1`, stays at most `1`. -/
theorem foldlMax_le_one {α : Type} (f : α → ℝ) (hf : ∀ x, f x ≤ 1) :
    ∀ (l : List α) (a : ℝ), a ≤ 1 → l.foldl (fun m x => max m (f x)) a ≤ 1
  | [], _, h => h
  | x :: l, _a, h => foldlMax_le_one f hf l _ (max_le h (hf x))

/-- The semantic-pattern sub-score is in `[0,1]` for every embedder and
query. -/
theorem semanticTemporalDetection_bounds {n : ℕ}
    (embed : String → Option (EuclideanSpace ℝ (Fin n))) (query : String) :
    0 ≤ semanticTemporalDetection embed query
    ∧ semanticTemporalDetection embed query ≤ 1 := by
  rw [semanticTemporalDetection]
  cases hq : embed query with
  | none => norm_num
  | some qe =>
    cases hp : temporalPatterns.mapM embed with
    | none => norm_num
    | some pes =>
      exact ⟨foldlMax_nonneg _ pes 0 le_rfl,
        foldlMax_le_one _ (fun pe => cosineSimilarity_le_one qe pe) pes 0 zero_le_one⟩

/-- The population variance of a rational sample is non-negative. -/
theorem varianceOf_nonneg (xs : List ℚ) : 0 ≤ varianceOf xs := by
  rw [varianceOf]
  apply div_nonneg
  · apply List.sum_nonneg
    intro x hx
    obtain ⟨a, -, rfl⟩ := List.mem_map.mp hx
    positivity
  · positivity

/-- Bounds of the `0.6 / 0.4` combination from bounds of its parts. -/
theorem subscoreCombination_bounds (r v : ℚ) (hr0 : 0 ≤ r) (hr1 : r ≤ 1)
    (hv0 : 0 ≤ v) (hv1 : v ≤ 1) :
    0 ≤ r * 0.6 + v * 0.4 ∧ r * 0.6 + v * 0.4 ≤ 1 := by
  constructor <;> nlinarith

/-- The statistical temporal-benefit sub-score is in `[0,1]` for every
collection. -/
theorem estimateTemporalBenefit_bounds (now : ℚ) (coll : List MemoryRecord) :
    0 ≤ estimateTemporalBenefit now coll ∧ estimateTemporalBenefit now coll ≤ 1 := by
  simp only [estimateTemporalBenefit]
  split_ifs with h1 h2 h3 h4 h5
  · norm_num
  · norm_num
  · exact subscoreCombination_bounds _ _ (by positivity)
      ((div_le_one h3).mpr (Nat.cast_le.mpr (List.length_filter_le _ _)))
      (le_min (div_nonneg (varianceOf_nonneg _) (by norm_num)) zero_le_one)
      (min_le_right _ _)
  · exact subscoreCombination_bounds _ _ (by positivity)
      ((div_le_one h3).mpr (Nat.cast_le.mpr (List.length_filter_le _ _)))
      (le_min (by norm_num) zero_le_one)
      (min_le_right _ _)
  · exact subscoreCombination_bounds _ _ le_rfl zero_le_one
      (le_min (div_nonneg (varianceOf_nonneg _) (by norm_num)) zero_le_one)
      (min_le_right _ _)
  · exact subscoreCombination_bounds _ _ le_rfl zero_le_one
      (le_min (by norm_num) zero_le_one)
      (min_le_right _ _)

/-- The linguistic sub-score is in `[0,1]` for every query. -/
theorem linguisticTemporalAnalysis_bounds (query : String) :
    0 ≤ linguisticTemporalAnalysis query ∧ linguisticTemporalAnalysis query ≤ 1 := by
  simp only [linguisticTemporalAnalysis]
  refine ⟨le_min ?_ zero_le_one, min_le_right _ _⟩
  split_ifs with h
  · exact add_nonneg (le_min (by positivity) zero_le_one) (by norm_num)
  · exact le_min (by positivity) zero_le_one

/-- C5: for every embedder, query and collection, the confidence returned
by `analyze_intent` lies in `[0,1]`: each of the three sub-scores is in
`[0,1]` and so is their `0.4 / 0.3 / 0.3` weighted sum. -/
theorem analyzeIntent_confidence_in_unit_range {n : ℕ}
    (embed : String → Option (EuclideanSpace ℝ (Fin n)))
    (now : ℚ) (query : String) (coll : List MemoryRecord) :
    0 ≤ (analyzeIntent embed now query coll).2
    ∧ (analyzeIntent embed now query coll).2 ≤ 1 := by
  obtain ⟨hs0, hs1⟩ := semanticTemporalDetection_bounds embed query
  obtain ⟨hb0, hb1⟩ := estimateTemporalBenefit_bounds now coll
  obtain ⟨hl0, hl1⟩ := linguisticTemporalAnalysis_bounds query
  have hb0' : (0 : ℝ) ≤ ((estimateTemporalBenefit now coll : ℚ) : ℝ) := by exact_mod_cast hb0
  have hb1' : ((estimateTemporalBenefit now coll : ℚ) : ℝ) ≤ 1 := by exact_mod_cast hb1
  have hl0' : (0 : ℝ) ≤ ((linguisticTemporalAnalysis query : ℚ) : ℝ) := by exact_mod_cast hl0
  have hl1' : ((linguisticTemporalAnalysis query : ℚ) : ℝ) ≤ 1 := by exact_mod_cast hl1
  simp only [analyzeIntent]
  split_ifs <;> constructor <;> dsimp only <;> linarith

/-- C6: `analyze_intent` combines the three sub-scores with the fixed
weights `0.4 / 0.3 / 0.3`, and the returned intent is determined by the
returned confidence with closed lower bounds at `0.7` and `0.3`. -/
theorem analyzeIntent_weights_and_thresholds {n : ℕ}
    (embed : String → Option (EuclideanSpace ℝ (Fin n)))
    (now : ℚ) (query : String) (coll : List MemoryRecord) :
    (analyzeIntent embed now query coll).2
        = semanticTemporalDetection embed query * 0.4
          + ((estimateTemporalBenefit now coll : ℚ) : ℝ) * 0.3
          + ((linguisticTemporalAnalysis query : ℚ) : ℝ) * 0.3
    ∧ ((analyzeIntent embed now query coll).1 = .temporal_primary
        ↔ 0.7 ≤ (analyzeIntent embed now query coll).2)
    ∧ ((analyzeIntent embed now query coll).1 = .temporal_secondary
        ↔ 0.3 ≤ (analyzeIntent embed now query coll).2
          ∧ (analyzeIntent embed now query coll).2 < 0.7)
    ∧ ((analyzeIntent embed now query coll).1 = .semantic_only
        ↔ (analyzeIntent embed now query coll).2 < 0.3) := by
  simp only [analyzeIntent]
  split_ifs with h1 h2 <;> dsimp only <;> refine ⟨rfl, ?_, ?_, ?_⟩
  · exact iff_of_true rfl h1
  · exact iff_of_false (by decide) fun ⟨_, hlt⟩ => absurd h1 (not_le.mpr hlt)
  · exact iff_of_false (by decide) fun hlt => by linarith
  · exact iff_of_false (by decide) fun hle => absurd hle (not_le.mpr (lt_of_not_le h1))
  · exact iff_of_true rfl ⟨h2, lt_of_not_le h1⟩
  · exact iff_of_false (by decide) fun hlt => by linarith
  · exact iff_of_false (by decide) fun hle => by
      have := lt_of_not_le h1
      linarith
  · exact iff_of_false (by decide) fun ⟨hge, _⟩ => absurd hge (not_le.mpr (lt_of_not_le h2))
  · exact iff_of_true rfl (lt_of_not_le h2)

/-- Every entry of the `timestamped_memories` list carries the parsed
timestamp of its record, the corresponding age, and satisfies the optional
age filter. -/
theorem mem_timestampedOf {now : ℚ} {tf : Option ℚ} {coll : List MemoryRecord}
    {x : TsMemory} (hx : x ∈ timestampedOf now tf coll) :
    parsedTimestamp x.mem.created_at = some x.sort_timestamp
    ∧ x.age_hours = ageHours now x.sort_timestamp
    ∧ ∀ f, tf = some f → ageHours now x.sort_timestamp ≤ f := by
  rw [timestampedOf] at hx
  obtain ⟨m, _, hfx⟩ := List.mem_filterMap.mp hx
  rcases hts : parsedTimestamp m.created_at with _ | ts <;> rw [hts] at hfx
  · simp at hfx
  · rcases tf with _ | f
    · simp only [Option.some_inj] at hfx
      subst hfx
      exact ⟨hts, rfl, fun f hf => by simp at hf⟩
    · dsimp only at hfx
      split_ifs at hfx with hgt
      obtain rfl := Option.some_inj.mp hfx
      exact ⟨hts, rfl, fun f' hf' => by
        obtain rfl := Option.some_inj.mp hf'
        exact le_of_not_lt hgt⟩

/-- Every output entry of `get_memories_by_timestamp` comes from an entry
of the `timestamped_memories` list, with `sort_timestamp` popped. -/
theorem mem_getMemoriesByTimestamp {now : ℚ} {coll : List MemoryRecord}
    {limit : ℕ} {tf : Option ℚ} {tm : TimedMemory}
    (h : tm ∈ getMemoriesByTimestamp now coll limit tf) :
    ∃ x ∈ timestampedOf now tf coll, tm = ⟨x.mem, x.age_hours⟩ := by
  rw [getMemoriesByTimestamp] at h
  obtain ⟨x, hx, rfl⟩ := List.mem_map.mp h
  have hx' := (List.take_sublist _ _).subset hx
  rw [List.mem_insertionSort] at hx'
  exact ⟨x, hx', rfl⟩

/-- C9: `get_memories_by_timestamp` returns only records whose parsed age
passes the optional filter, sorted descending by parsed timestamp, with at
most `limit` entries. -/
theorem getMemoriesByTimestamp_filter_sort_limit (now : ℚ) (coll : List MemoryRecord)
    (limit : ℕ) (tf : Option ℚ) :
    (∀ tm ∈ getMemoriesByTimestamp now coll limit tf,
        ∃ ts, parsedTimestamp tm.mem.created_at = some ts
          ∧ ∀ f, tf = some f → ageHours now ts ≤ f)
    ∧ (getMemoriesByTimestamp now coll limit tf).Pairwise
        (fun a b => (parsedTimestamp b.mem.created_at).getD 0
          ≤ (parsedTimestamp a.mem.created_at).getD 0)
    ∧ (getMemoriesByTimestamp now coll limit tf).length ≤ limit := by
  refine ⟨?_, ?_, ?_⟩
  · intro tm htm
    obtain ⟨x, hx, rfl⟩ := mem_getMemoriesByTimestamp htm
    obtain ⟨hparse, -, hfilter⟩ := mem_timestampedOf hx
    exact ⟨x.sort_timestamp, hparse, hfilter⟩
  · haveI : IsTotal TsMemory (fun a b => b.sort_timestamp ≤ a.sort_timestamp) :=
      ⟨fun a b => le_total b.sort_timestamp a.sort_timestamp⟩
    haveI : IsTrans TsMemory (fun a b => b.sort_timestamp ≤ a.sort_timestamp) :=
      ⟨fun _ _ _ h1 h2 => le_trans h2 h1⟩
    have hsorted : (List.insertionSort
        (fun a b : TsMemory => b.sort_timestamp ≤ a.sort_timestamp)
        (timestampedOf now tf coll)).Pairwise
        (fun a b => b.sort_timestamp ≤ a.sort_timestamp) :=
      List.sorted_insertionSort _ _
    have htake := hsorted.sublist (List.take_sublist limit _)
    have hp2 : ((List.insertionSort
        (fun a b : TsMemory => b.sort_timestamp ≤ a.sort_timestamp)
        (timestampedOf now tf coll)).take limit).Pairwise
        (fun a b : TsMemory => (parsedTimestamp b.mem.created_at).getD 0
          ≤ (parsedTimestamp a.mem.created_at).getD 0) := by
      refine List.Pairwise.imp_of_mem ?_ htake
      intro a b ha hb hr
      have hmemt : ∀ y : TsMemory, y ∈ (List.insertionSort
          (fun a b : TsMemory => b.sort_timestamp ≤ a.sort_timestamp)
          (timestampedOf now tf coll)).take limit →
          parsedTimestamp y.mem.created_at = some y.sort_timestamp := by
        intro y hy
        have hy' := (List.take_sublist _ _).subset hy
        rw [List.mem_insertionSort] at hy'
        exact (mem_timestampedOf hy').1
      rw [hmemt a ha, hmemt b hb]
      simpa using hr
    rw [getMemoriesByTimestamp]
    exact List.pairwise_map.mpr hp2
  · rw [getMemoriesByTimestamp]
    rw [List.length_map]
    exact (List.length_take _ _).le.trans (min_le_left _ _)

/-- Witness for `getMemoriesByTimestamp_filter_sort_limit` on a concrete
mixed collection with a `24h` filter. -/
theorem getMemoriesByTimestamp_filter_sort_limit_witness :
    (∃ ts, parsedTimestamp (⟨freshRecord, 1⟩ : TimedMemory).mem.created_at = some ts
        ∧ ∀ f, (some (24 : ℚ)) = some f → ageHours 7200 ts ≤ f)
    ∧ (getMemoriesByTimestamp 7200 [freshRecord, malformedRecord] 5 (some 24)).length ≤ 5 := by
  have h := getMemoriesByTimestamp_filter_sort_limit 7200 [freshRecord, malformedRecord]
    5 (some 24)
  refine ⟨h.1 ⟨freshRecord, 1⟩ ?_, h.2.2⟩
  have he : getMemoriesByTimestamp 7200 [freshRecord, malformedRecord] 5 (some 24)
      = [⟨freshRecord, 1⟩] := by
    norm_num [getMemoriesByTimestamp, timestampedOf, parsedTimestamp, ageHours,
      freshRecord, malformedRecord, List.filterMap_cons, List.insertionSort,
      List.orderedInsert, List.take_succ_cons, List.take_nil]
  rw [he]
  exact List.mem_singleton_self _

/-- C10: under a temporal intent the output of `adaptive_temporal_scoring`
is sorted descending by the assigned temporal score, and any equal-score
subsequence of the decorated input survives as a subsequence of the output
(stability: ties keep their input order). -/
theorem adaptiveTemporalScoring_sorted_and_stable (now : ℚ) (l : List MemoryRecord)
    (intent : QueryIntent) (confidence : ℝ) (p : TemporalProfile)
    (h : intent ≠ .semantic_only) :
    (adaptiveTemporalScoring now l intent confidence p).Pairwise
        (fun a b => scoredKey b ≤ scoredKey a)
    ∧ ∀ c : List ScoredMemory,
        c.Pairwise (fun a b => scoredKey a = scoredKey b) →
        c.Sublist (l.map (scoreMemory now intent confidence p)) →
        c.Sublist (adaptiveTemporalScoring now l intent confidence p) := by
  rw [adaptiveTemporalScoring, if_neg h]
  constructor
  · haveI : IsTotal ScoredMemory (fun a b => scoredKey b ≤ scoredKey a) :=
      ⟨fun a b => le_total (scoredKey b) (scoredKey a)⟩
    haveI : IsTrans ScoredMemory (fun a b => scoredKey b ≤ scoredKey a) :=
      ⟨fun _ _ _ h1 h2 => le_trans h2 h1⟩
    exact List.sorted_insertionSort _ _
  · intro c hceq hcsub
    exact List.sublist_insertionSort (hceq.imp fun hab => hab.ge) hcsub

/-- Witness for `adaptiveTemporalScoring_sorted_and_stable` under
`TEMPORAL_PRIMARY` on the empty collection. -/
theorem adaptiveTemporalScoring_sorted_and_stable_witness :
    (adaptiveTemporalScoring 0 [] .temporal_primary 0 defaultEmptyProfile).Pairwise
        (fun a b => scoredKey b ≤ scoredKey a)
    ∧ ∀ c : List ScoredMemory,
        c.Pairwise (fun a b => scoredKey a = scoredKey b) →
        c.Sublist (List.map (scoreMemory 0 .temporal_primary 0 defaultEmptyProfile) []) →
        c.Sublist (adaptiveTemporalScoring 0 [] .temporal_primary 0 defaultEmptyProfile) :=
  adaptiveTemporalScoring_sorted_and_stable 0 [] .temporal_primary 0 defaultEmptyProfile
    (by decide)

end TemporalIntel
